import Mathlib

/-!
Shallow embedding of the query/resolution core of the MagentaA11y MCP
server (`src/helpers.js` and the tool handlers in `src/tools.js`).

The document collection (`data/content.json`) is an external data
artifact; the core functions close over it in the source, so the
embedding passes it explicitly as a `Content` value.  JavaScript
strings are modelled by `String`, absent JSON fields by `Option`,
and `undefined`-able handler arguments by `Option`/`JsArg`.
JavaScript exceptions that the handlers catch are modelled with an
explicit error type.
-/

namespace A11y

/-- A component record: one accessibility-criteria document.
All long-form content fields are optional strings (absent JSON keys are
`none`).  The `videos` field is opaque in the source and only ever used
through JavaScript truthiness, so it is modelled by its truthiness. -/
structure Component where
  name : String
  label : String
  generalNotes : Option String
  gherkin : Option String
  condensed : Option String
  developerNotes : Option String
  androidDeveloperNotes : Option String
  iosDeveloperNotes : Option String
  videos : Bool
deriving Repr, DecidableEq

/-- A category: a named grouping of components.  The `children` key may
be absent in the data, which the source guards with `if (cat.children)`. -/
structure Category where
  name : String
  label : String
  children : Option (List Component)
deriving Repr, DecidableEq

/-- The document collection: a mapping with the two platform keys
`"web"` and `"native"`.  A missing platform key is `none`. -/
structure Content where
  web : Option (List Category)
  native : Option (List Category)
deriving Repr, DecidableEq

/-- `content[platform]` — indexing the collection by platform key.  Any
key other than `"web"`/`"native"` yields `undefined`, i.e. `none`. -/
def platformData (content : Content) : String → Option (List Category)
  | "web" => content.web
  | "native" => content.native
  | _ => none

/-- `s.toLowerCase()` — per-character lower-casing (the ASCII fragment
of the Unicode mapping, which covers the catalog's identifiers). -/
def strToLower (s : String) : String :=
  ⟨s.data.map Char.toLower⟩

/-- Is the character in the modelled JavaScript whitespace set used by
`trim()`? -/
def isJsSpace (c : Char) : Bool :=
  c = ' ' || c = '\t' || c = '\n' || c = '\r' ||
  c = Char.ofNat 0x0b || c = Char.ofNat 0x0c

/-- `s.trim()` — strip whitespace from both ends. -/
def strTrim (s : String) : String :=
  ⟨List.reverse (List.dropWhile isJsSpace
     (List.reverse (List.dropWhile isJsSpace s.data)))⟩

/-- JavaScript truthiness of an optional string field:
present and non-empty. -/
def truthyStr : Option String → Bool
  | none => false
  | some s => !s.isEmpty

/-- `a || null` on an optional string: an empty (falsy) string collapses
to `null`. -/
def jsOrNull (o : Option String) : Option String :=
  if truthyStr o then o else none

/-- Auxiliary scan for `jsIncludes` over character lists. -/
def jsIncludesAux (needle : List Char) : List Char → Bool
  | [] => needle.isEmpty
  | c :: cs => needle.isPrefixOf (c :: cs) || jsIncludesAux needle cs

/-- `hay.includes(needle)` — JavaScript substring containment.  The
empty needle is contained in every string. -/
def jsIncludes (hay needle : String) : Bool :=
  jsIncludesAux needle.data hay.data

/-- The component record returned by `findComponent`: the spread
`{...component, category, categoryName}` — all component fields plus
the enclosing category's label and name. -/
structure ResolvedComponent where
  comp : Component
  category : String
  categoryName : String
deriving Repr, DecidableEq

/-- The summary records produced by `listComponents`. -/
structure ComponentSummary where
  name : String
  label : String
  category : String
  categoryName : String
deriving Repr, DecidableEq

/-- The category filter of `listComponents`:
`if (category && cat.name.toLowerCase() !== category.toLowerCase()) continue`.
A falsy filter (absent or empty string) keeps every category. -/
def categoryFilterKeeps (category : Option String) (cat : Category) : Bool :=
  match category with
  | none => true
  | some c => if c = "" then true else strToLower cat.name == strToLower c

/-- `listComponents(platform, category)` — flatten all children of all
(matching) categories, annotated with the parent category info. -/
def listComponents (content : Content) (platform : String)
    (category : Option String) : List ComponentSummary :=
  match platformData content platform with
  | none => []
  | some cats =>
    cats.flatMap fun cat =>
      if categoryFilterKeeps category cat then
        match cat.children with
        | none => []
        | some children =>
          children.map fun child => ⟨child.name, child.label, cat.label, cat.name⟩
      else []

/-- The exact pass of `findComponent`: first component in scan order
whose lower-cased name equals the normalized query. -/
def findExactIn (normalized : String) : List Category → Option ResolvedComponent
  | [] => none
  | cat :: rest =>
    match cat.children with
    | none => findExactIn normalized rest
    | some children =>
      match children.find? (fun c => strToLower c.name == normalized) with
      | some c => some ⟨c, cat.label, cat.name⟩
      | none => findExactIn normalized rest

/-- The fuzzy pass of `findComponent`: first component in scan order
whose lower-cased name or label contains the normalized query. -/
def findFuzzyIn (normalized : String) : List Category → Option ResolvedComponent
  | [] => none
  | cat :: rest =>
    match cat.children with
    | none => findFuzzyIn normalized rest
    | some children =>
      match children.find? (fun c =>
          jsIncludes (strToLower c.name) normalized ||
          jsIncludes (strToLower c.label) normalized) with
      | some c => some ⟨c, cat.label, cat.name⟩
      | none => findFuzzyIn normalized rest

/-- The body of `findComponent` once the platform's category list is in
hand: normalize the query, exact pass, then fuzzy fallback. -/
def findComponentInCats (cats : List Category) (componentName : String) :
    Option ResolvedComponent :=
  let normalized := strTrim (strToLower componentName)
  match findExactIn normalized cats with
  | some r => some r
  | none => findFuzzyIn normalized cats

/-- `findComponent(platform, componentName)` — exact pass, then fuzzy
fallback, else `null`. -/
def findComponent (content : Content) (platform componentName : String) :
    Option ResolvedComponent :=
  match platformData content platform with
  | none => none
  | some cats => findComponentInCats cats componentName

/-- The flattened scan order of a category list: every child of every
category (childless categories contribute nothing), annotated with its
enclosing category's label and name. -/
def annotatedComponents (cats : List Category) : List ResolvedComponent :=
  cats.flatMap fun cat =>
    match cat.children with
    | none => []
    | some children => children.map fun c => ⟨c, cat.label, cat.name⟩

/-- Element of the modelled regular-expression fragment: a literal
character or the `.` wildcard.  `searchComponents` builds
`new RegExp(normalizedQuery, 'g')` from the raw query; the embedding
models the fragment in which every query character is either a literal
or `.` — queries containing the other metacharacters
`* + ? ( ) [ ] \x7b \x7d | ^ $ \` are outside the modelled fragment. -/
inductive RegexElem
  | lit (c : Char)
  | dot
deriving Repr, DecidableEq

/-- Compile a query string to the modelled pattern. -/
def parseRegex (s : String) : List RegexElem :=
  s.data.map fun c => if c = '.' then RegexElem.dot else RegexElem.lit c

/-- Does one pattern element match one character?  The `.` wildcard
matches any character except a line terminator. -/
def elemMatch : RegexElem → Char → Bool
  | RegexElem.lit a, c => a == c
  | RegexElem.dot, c =>
    !(c = '\n' || c = '\r' || c = Char.ofNat 0x2028 || c = Char.ofNat 0x2029)

/-- Does the pattern match a prefix of the text? -/
def regexAccepts : List RegexElem → List Char → Bool
  | [], _ => true
  | _ :: _, [] => false
  | p :: ps, c :: cs => elemMatch p c && regexAccepts ps cs

/-- Greedy left-to-right non-overlapping count of matches of a
non-empty pattern, as produced by a global regex scan: after a match
the scan resumes past its end.  The fuel argument (instantiated with
the text length, which bounds the number of scan steps) makes the
recursion structural. -/
def countFrom (pat : List RegexElem) : Nat → List Char → Nat
  | 0, _ => 0
  | _, [] => 0
  | fuel + 1, c :: cs =>
    if regexAccepts pat (c :: cs) then
      1 + countFrom pat fuel (List.drop (pat.length - 1) cs)
    else
      countFrom pat fuel cs

/-- `(text.match(new RegExp(pattern, 'g')) || []).length` for a pattern
in the modelled fragment.  The empty pattern matches once at every
position, giving `length + 1`. -/
def jsRegexCount (pattern text : String) : Nat :=
  let pat := parseRegex pattern
  if pat.isEmpty then text.data.length + 1
  else countFrom pat text.data.length text.data

/-- A scored search result of `searchComponents`. -/
structure ScoredMatch where
  name : String
  label : String
  category : String
  categoryName : String
  score : Int
  matchedFields : List String
  generalNotes : Option String
deriving Repr, DecidableEq

/-- The fixed ordered table of searched fields with their weights:
`label:10, name:10, generalNotes:5, gherkin:3, condensed:3,
developerNotes:2, androidDeveloperNotes:2, iosDeveloperNotes:2`.
`name` and `label` are mandatory strings, accessed uniformly as
optional values (`component[field]`). -/
def searchFields : List (String × (Component → Option String) × Int) :=
  [("label", fun c => some c.label, 10),
   ("name", fun c => some c.name, 10),
   ("generalNotes", Component.generalNotes, 5),
   ("gherkin", Component.gherkin, 3),
   ("condensed", Component.condensed, 3),
   ("developerNotes", Component.developerNotes, 2),
   ("androidDeveloperNotes", Component.androidDeveloperNotes, 2),
   ("iosDeveloperNotes", Component.iosDeveloperNotes, 2)]

/-- The per-component field loop of `searchComponents`: for each field
whose (truthy string) value contains the normalized query, add the
field's weight plus `occurrences - 1` to the score and record the field
name, in table order. -/
def scoreFields (nq : String) (c : Component) :
    List (String × (Component → Option String) × Int) → Int × List String
  | [] => (0, [])
  | (field, get, weight) :: rest =>
    let r := scoreFields nq c rest
    match get c with
    | none => r
    | some v =>
      if v.isEmpty then r
      else
        let lv := strToLower v
        if jsIncludes lv nq then
          (weight + ((jsRegexCount nq lv : Int) - 1) + r.1, field :: r.2)
        else r

/-- Score one component against the normalized query over the whole
field table: the total score and the matched field names. -/
def scoreComponent (nq : String) (c : Component) : Int × List String :=
  scoreFields nq c searchFields

/-- The unsorted result accumulation loop of `searchComponents`:
components with positive score, in scan order, with category
provenance. -/
def searchResultsUnsorted (cats : List Category) (nq : String) : List ScoredMatch :=
  cats.flatMap fun cat =>
    match cat.children with
    | none => []
    | some children =>
      children.filterMap fun comp =>
        let r := scoreComponent nq comp
        if 0 < r.1 then
          some ⟨comp.name, comp.label, cat.label, cat.name, r.1, r.2, comp.generalNotes⟩
        else none

/-- Lexicographic order on character lists (code-point comparison). -/
def charListLe : List Char → List Char → Bool
  | [], _ => true
  | _ :: _, [] => false
  | a :: as, b :: bs => if a = b then charListLe as bs else decide (a < b)

/-- String order used to model `a.name.localeCompare(b.name)`:
lexicographic by code point (which agrees with locale collation on the
catalog's slug names). -/
def strLe (a b : String) : Bool :=
  charListLe a.data b.data

/-- The sort comparator of `searchComponents`: score descending, ties
broken by name ascending. -/
def smLE (a b : ScoredMatch) : Bool :=
  decide (b.score < a.score) || (decide (a.score = b.score) && strLe a.name b.name)

/-- The comparator as a relation, for sorting. -/
def smRel (a b : ScoredMatch) : Prop :=
  smLE a b = true

instance : DecidableRel smRel := fun a b =>
  inferInstanceAs (Decidable (smLE a b = true))

/-- `list.slice(0, n)` for an integer bound: a non-negative bound takes
that many elements from the front; a negative bound counts from the
end. -/
def jsSliceTo (n : Int) (l : List α) : List α :=
  if 0 ≤ n then l.take n.toNat else l.take (l.length - (-n).toNat)

/-- `searchComponents` before the final `slice`: the full sorted match
list (empty for a missing platform or an absent/empty query). -/
def allSortedMatches (content : Content) (platform : String)
    (query : Option String) : List ScoredMatch :=
  match platformData content platform with
  | none => []
  | some cats =>
    match query with
    | none => []
    | some q =>
      if q = "" then []
      else
        List.insertionSort smRel (searchResultsUnsorted cats (strTrim (strToLower q)))

/-- `searchComponents(platform, query, maxResults)`. -/
def searchComponents (content : Content) (platform : String)
    (query : Option String) (maxResults : Int) : List ScoredMatch :=
  jsSliceTo maxResults (allSortedMatches content platform query)

/-- `searchComponents` with its default argument `maxResults = 10`. -/
def searchComponentsDefault (content : Content) (platform : String)
    (query : Option String) : List ScoredMatch :=
  searchComponents content platform query 10

/-- The inner boolean format flags of `listComponentFormats`. -/
structure FormatFlags where
  gherkin : Bool
  condensed : Bool
  developerNotes : Bool
  androidDeveloperNotes : Bool
  iosDeveloperNotes : Bool
  videos : Bool
  generalNotes : Bool
deriving Repr, DecidableEq

/-- The report of `listComponentFormats`. -/
structure FormatReport where
  name : String
  label : String
  category : String
  formats : FormatFlags
deriving Repr, DecidableEq

/-- `listComponentFormats(platform, componentName)`: resolve via
`findComponent`, then report `!!field` for each content field. -/
def listComponentFormats (content : Content) (platform componentName : String) :
    Option FormatReport :=
  match findComponent content platform componentName with
  | none => none
  | some rc =>
    some ⟨rc.comp.name, rc.comp.label, rc.category,
      ⟨truthyStr rc.comp.gherkin, truthyStr rc.comp.condensed,
       truthyStr rc.comp.developerNotes, truthyStr rc.comp.androidDeveloperNotes,
       truthyStr rc.comp.iosDeveloperNotes, rc.comp.videos,
       truthyStr rc.comp.generalNotes⟩⟩

/-- The record built by `formatComponentOutput`: optional sections are
present exactly when the corresponding field is truthy (and, for
`developerNotes`, code examples were requested). -/
structure FormattedOutput where
  name : String
  label : String
  category : String
  generalNotes : Option String
  gherkin : Option String
  condensed : Option String
  developerNotes : Option String
  androidDeveloperNotes : Option String
  iosDeveloperNotes : Option String
deriving Repr, DecidableEq

/-- `formatComponentOutput(component, includeCodeExamples)` on an
already-resolved (non-null) component. -/
def formatComponentOutput (rc : ResolvedComponent) (includeCodeExamples : Bool) :
    FormattedOutput :=
  ⟨rc.comp.name, rc.comp.label, rc.category,
   jsOrNull rc.comp.generalNotes,
   jsOrNull rc.comp.gherkin,
   jsOrNull rc.comp.condensed,
   if includeCodeExamples then jsOrNull rc.comp.developerNotes else none,
   jsOrNull rc.comp.androidDeveloperNotes,
   jsOrNull rc.comp.iosDeveloperNotes⟩

/-- A category summary of `listCategories`. -/
structure CategorySummary where
  name : String
  label : String
  componentCount : Nat
deriving Repr, DecidableEq

/-- The per-category summary map of `listCategories`:
`componentCount` is `cat.children ? cat.children.length : 0`. -/
def categorySummaries (cats : List Category) : List CategorySummary :=
  cats.map fun cat =>
    ⟨cat.name, cat.label, match cat.children with
                          | some l => l.length
                          | none => 0⟩

/-- `listCategories(platform)`. -/
def listCategories (content : Content) (platform : String) : List CategorySummary :=
  match platformData content platform with
  | none => []
  | some cats => categorySummaries cats

/-- A JavaScript-valued tool argument, as received by a handler:
possibly absent (`undef`), `null`, or a boolean/number/string. -/
inductive JsArg
  | undef
  | null
  | bool (b : Bool)
  | number (n : Int)
  | string (s : String)
deriving Repr, DecidableEq

/-- `args.include_code_examples !== false`: only the strict boolean
`false` disables code examples. -/
def jsIncludeCodeExamples (v : JsArg) : Bool :=
  match v with
  | JsArg.bool false => false
  | _ => true

/-- A numeric tool argument: absent, `null`, `NaN`, or an integer. -/
inductive JsNumArg
  | undef
  | null
  | nan
  | number (n : Int)
deriving Repr, DecidableEq

/-- JavaScript truthiness of a numeric argument: only a non-zero
number is truthy (`undefined`, `null`, `NaN` and `0` are falsy). -/
def jsNumTruthy : JsNumArg → Bool
  | JsNumArg.number n => !(n == 0)
  | _ => false

/-- `v || d` for a numeric argument: the value when truthy, the
default otherwise. -/
def jsOrDefault (v : JsNumArg) (d : Int) : Int :=
  match v with
  | JsNumArg.number n => if n == 0 then d else n
  | _ => d

/-- The result list computed by the `search_web_criteria` handler:
`searchComponents('web', args.query, args.max_results || 10)`. -/
def searchWebCriteriaResults (content : Content) (query : Option String)
    (max_results : JsNumArg) : List ScoredMatch :=
  searchComponents content "web" query (jsOrDefault max_results 10)

/-- The result list computed by the `search_native_criteria` handler:
`searchComponents('native', args.query, args.max_results || 10)`. -/
def searchNativeCriteriaResults (content : Content) (query : Option String)
    (max_results : JsNumArg) : List ScoredMatch :=
  searchComponents content "native" query (jsOrDefault max_results 10)

/-- A JavaScript runtime error caught by a handler's `try/catch`; the
one arising in the modelled paths is the `TypeError` from calling
`.toLowerCase()` on `undefined`. -/
inductive JsError
  | typeError
deriving Repr, DecidableEq

/-- `findComponent` as called with a possibly-absent component name:
the platform check precedes normalization, so a missing platform still
returns `null`, while an absent name on a present platform throws. -/
def findComponentJs (content : Content) (platform : String)
    (componentName : Option String) : Except JsError (Option ResolvedComponent) :=
  match platformData content platform with
  | none => Except.ok none
  | some cats =>
    match componentName with
    | none => Except.error JsError.typeError
    | some s => Except.ok (findComponentInCats cats s)

/-- The "did you mean" suggestion list of the `get_web_component` /
`get_native_component` not-found branch: summaries whose raw `name` or
lower-cased `label` contains the lower-cased argument, capped at 5.
The `none` branch of the predicate is unreachable when the summary list
is non-empty (an absent argument would already have thrown). -/
def componentSuggestions (content : Content) (platform : String)
    (component : Option String) : List ComponentSummary :=
  ((listComponents content platform none).filter fun c =>
    match component with
    | none => false
    | some s =>
      jsIncludes c.name (strToLower s) ||
      jsIncludes (strToLower c.label) (strToLower s)).take 5

/-- Outcome of the `get_web_component` handler, distinguishing the
branch taken; every branch is rendered as a text response by the
source.  The `validationError` variant is modelled from the spec: §7's
`ValidationError` ("a required parameter is absent/empty, surfaced as a
descriptive result") — no handler in the source constructs it. -/
inductive GetComponentOutcome
  | validationError (param : String)
  | caughtError (e : JsError)
  | notFound (component : Option String) (suggestions : List ComponentSummary)
  | ok (formatted : FormattedOutput) (includeCode : Bool)
deriving Repr, DecidableEq

/-- Is the outcome the spec's `ValidationError`-style result? -/
def isValidationOutcome : GetComponentOutcome → Bool
  | GetComponentOutcome.validationError _ => true
  | _ => false

/-- The `get_web_component` handler: resolve, else suggest; on success
format with the code-example flag; a thrown error is caught. -/
def getWebComponent (content : Content) (component : Option String)
    (include_code_examples : JsArg) : GetComponentOutcome :=
  match findComponentJs content "web" component with
  | Except.error e => GetComponentOutcome.caughtError e
  | Except.ok none =>
    GetComponentOutcome.notFound component (componentSuggestions content "web" component)
  | Except.ok (some rc) =>
    let includeCode := jsIncludeCodeExamples include_code_examples
    GetComponentOutcome.ok (formatComponentOutput rc includeCode) includeCode

/-- The three code-example sections appended by the
`get_native_component` handler, all guarded by `if (includeCode)` and
by the truthiness of the respective field. -/
structure NativeNotesSections where
  ios : Option String
  android : Option String
  general : Option String
deriving Repr, DecidableEq

/-- Section selection of `get_native_component` (lines guarded by
`if (includeCode)`). -/
def getNativeComponentSections (c : Component) (includeCode : Bool) :
    NativeNotesSections :=
  if includeCode then
    ⟨jsOrNull c.iosDeveloperNotes, jsOrNull c.androidDeveloperNotes,
     jsOrNull c.developerNotes⟩
  else ⟨none, none, none⟩

/-- Greedy left-to-right non-overlapping count of occurrences of a
non-empty literal needle, with the same structural fuel as
`countFrom`. -/
def substrCountFrom (needle : List Char) : Nat → List Char → Nat
  | 0, _ => 0
  | _, [] => 0
  | fuel + 1, c :: cs =>
    if needle.isPrefixOf (c :: cs) then
      1 + substrCountFrom needle fuel (List.drop (needle.length - 1) cs)
    else
      substrCountFrom needle fuel cs

/-- Following the spec's words, for comparison with the source: the
"non-overlapping case-insensitive substring count" of the (already
lower-cased) query within the (already lower-cased) field value.  The
degenerate empty needle is fixed to the position count so that both
notions are total. -/
def specOccurrenceCount (needle hay : String) : Nat :=
  if needle.data.isEmpty then hay.data.length + 1
  else substrCountFrom needle.data hay.data.length hay.data

/-- Following the spec's words, for comparison with the source: the
field loop of §4.3 with the occurrence bonus computed as a literal
substring count instead of a regex match count. -/
def specScoreFields (nq : String) (c : Component) :
    List (String × (Component → Option String) × Int) → Int × List String
  | [] => (0, [])
  | (field, get, weight) :: rest =>
    let r := specScoreFields nq c rest
    match get c with
    | none => r
    | some v =>
      if v.isEmpty then r
      else
        let lv := strToLower v
        if jsIncludes lv nq then
          (weight + ((specOccurrenceCount nq lv : Int) - 1) + r.1, field :: r.2)
        else r

/-- The spec's per-component score (sum over the weighted field table
of weight plus substring-occurrence bonus). -/
def specComponentScore (nq : String) (c : Component) : Int :=
  (specScoreFields nq c searchFields).1

/-- The spec's matched-field list (table order). -/
def specMatchedFields (nq : String) (c : Component) : List String :=
  (specScoreFields nq c searchFields).2

/-- Is the character a JavaScript regular-expression metacharacter?
Queries containing none of these denote themselves as literal
patterns. -/
def isRegexMeta (c : Char) : Bool :=
  c = '.' || c = '*' || c = '+' || c = '?' || c = '(' || c = ')' ||
  c = '[' || c = ']' || c = Char.ofNat 123 || c = Char.ofNat 125 ||
  c = '|' || c = '^' || c = '$' || c = '\\'

/-- Modelled from the spec: a button component as in §8's fuzzy-fallback
example (the concrete `data/content.json` artifact is not under
`src/`). -/
def buttonComp : Component :=
  ⟨"button", "Button", some "Button overview", some "Given the button", none,
   some "button markup", none, none, false⟩

/-- Modelled from the spec: the checkbox component of §8's end-to-end
scenario, carrying Gherkin criteria. -/
def checkboxComp : Component :=
  ⟨"checkbox", "Checkbox", none, some "Given the checkbox", none, none, none,
   none, false⟩

/-- Modelled from the spec: a native switch component with
platform-specific developer notes (§3's native content sections). -/
def switchComp : Component :=
  ⟨"switch", "Switch", none, none, some "condensed switch", none,
   some "android notes", some "ios notes", false⟩

/-- Modelled from the spec: a document collection following §8's
end-to-end scenario — platform "web" with a Controls category holding
button and checkbox, platform "native" with a Controls category holding
switch. -/
def mContent : Content :=
  ⟨some [⟨"controls", "Controls", some [buttonComp, checkboxComp]⟩],
   some [⟨"controls", "Controls", some [switchComp]⟩]⟩

/-- A component whose overview text contains a literal dot, used to
exercise the occurrence count on the query `"."`. -/
def dotComp : Component :=
  ⟨"x", "Y", some "a.b", none, none, none, none, none, false⟩

/-- Modelled from the spec: a one-component collection (shape of §3/§8)
holding `dotComp`. -/
def cxContent : Content :=
  ⟨some [⟨"misc", "Misc", some [dotComp]⟩], none⟩

/-- Modelled from the spec: §8's collection extended with a category
whose `children` key is absent, to exercise the childless-category
guards. -/
def childlessContent : Content :=
  ⟨some [⟨"empty", "Empty", none⟩,
         ⟨"controls", "Controls", some [buttonComp, checkboxComp]⟩],
   some []⟩

/-- The same collection with the childless category removed. -/
def childlessContentRemoved : Content :=
  ⟨some [⟨"controls", "Controls", some [buttonComp, checkboxComp]⟩],
   some []⟩

example : findComponent mContent "web" " CheckBox " =
    some ⟨checkboxComp, "Controls", "controls"⟩ := by decide

example : findComponent mContent "web" "" =
    some ⟨buttonComp, "Controls", "controls"⟩ := by decide

example : findComponent mContent "web" "butt" =
    some ⟨buttonComp, "Controls", "controls"⟩ := by decide

example : findComponent mContent "web" "zzz" = none := by decide

example : scoreComponent "given" checkboxComp = (3, ["gherkin"]) := by decide

example : (searchComponents cxContent "web" (some ".") 10).map ScoredMatch.score =
    [7] := by decide

example : specComponentScore (strTrim (strToLower ".")) dotComp = 5 := by decide

example : searchComponents mContent "web" (some "given") 0 = [] := by decide

example : (searchComponents mContent "web" (some "given") 10).map ScoredMatch.name =
    ["button", "checkbox"] := by decide

/-- The exact pass is the first satisfier of the name-equality predicate
over the flattened scan order. -/
theorem findExactIn_eq_find? (nq : String) :
    ∀ cats, findExactIn nq cats =
      (annotatedComponents cats).find? (fun rc => strToLower rc.comp.name == nq)
  | [] => rfl
  | cat :: rest => by
    have ih := findExactIn_eq_find? nq rest
    cases h : cat.children with
    | none =>
      simp only [findExactIn, annotatedComponents, List.flatMap_cons, h, List.nil_append]
      exact ih
    | some children =>
      simp only [findExactIn, annotatedComponents, List.flatMap_cons, h,
        List.find?_append, List.find?_map]
      rw [← annotatedComponents, ← ih]
      have hcomp : ((fun rc => strToLower rc.comp.name == nq) ∘ fun c =>
          (⟨c, cat.label, cat.name⟩ : ResolvedComponent)) =
          fun c => strToLower c.name == nq := rfl
      rw [hcomp]
      cases children.find? (fun c => strToLower c.name == nq) <;> simp

/-- The fuzzy pass is the first satisfier of the containment predicate
over the flattened scan order. -/
theorem findFuzzyIn_eq_find? (nq : String) :
    ∀ cats, findFuzzyIn nq cats =
      (annotatedComponents cats).find? (fun rc =>
        jsIncludes (strToLower rc.comp.name) nq ||
        jsIncludes (strToLower rc.comp.label) nq)
  | [] => rfl
  | cat :: rest => by
    have ih := findFuzzyIn_eq_find? nq rest
    cases h : cat.children with
    | none =>
      simp only [findFuzzyIn, annotatedComponents, List.flatMap_cons, h, List.nil_append]
      exact ih
    | some children =>
      simp only [findFuzzyIn, annotatedComponents, List.flatMap_cons, h,
        List.find?_append, List.find?_map]
      rw [← annotatedComponents, ← ih]
      have hcomp : ((fun rc =>
          jsIncludes (strToLower rc.comp.name) nq ||
          jsIncludes (strToLower rc.comp.label) nq) ∘ fun c =>
          (⟨c, cat.label, cat.name⟩ : ResolvedComponent)) =
          fun c => jsIncludes (strToLower c.name) nq ||
            jsIncludes (strToLower c.label) nq := rfl
      rw [hcomp]
      cases children.find? (fun c =>
        jsIncludes (strToLower c.name) nq || jsIncludes (strToLower c.label) nq) <;> simp

/-- In a list whose keys are pairwise distinct, two members with equal
keys are the same element. -/
theorem eq_of_pairwise_key {α β : Type} (f : α → β) :
    ∀ {l : List α}, l.Pairwise (fun a b => f a ≠ f b) →
      ∀ {x y : α}, x ∈ l → y ∈ l → f x = f y → x = y
  | [], _, _, _, hx, _, _ => absurd hx (List.not_mem_nil _)
  | a :: l, h, x, y, hx, hy, hk => by
    rcases List.pairwise_cons.1 h with ⟨ha, hl⟩
    rcases List.mem_cons.1 hx with rfl | hx' <;> rcases List.mem_cons.1 hy with rfl | hy'
    · rfl
    · exact absurd hk (ha y hy')
    · exact absurd hk.symm (ha x hx')
    · exact eq_of_pairwise_key f hl hx' hy' hk

/-- C1.  Exact-match invariant: with the data-model invariants of §3
(component names are surrounding-whitespace-free identifiers, unique
within a platform up to case), `findComponent` on any string equal to a
stored component's name up to case and surrounding whitespace returns
that component's full record augmented with the enclosing category's
label and name. -/
theorem c1_exact_match (content : Content) (platform : String)
    (cats : List Category) (C : Component) (catLabel catName : String) (s : String)
    (hp : platformData content platform = some cats)
    (hmem : (⟨C, catLabel, catName⟩ : ResolvedComponent) ∈ annotatedComponents cats)
    (huniq : (annotatedComponents cats).Pairwise
      (fun a b => strToLower a.comp.name ≠ strToLower b.comp.name))
    (hname : strTrim (strToLower C.name) = strToLower C.name)
    (hs : strTrim (strToLower s) = strTrim (strToLower C.name)) :
    findComponent content platform s = some ⟨C, catLabel, catName⟩ := by
  have hnorm : strTrim (strToLower s) = strToLower C.name := hs.trans hname
  have hpred : (fun rc => strToLower rc.comp.name == strTrim (strToLower s))
      (⟨C, catLabel, catName⟩ : ResolvedComponent) = true := by
    simp [hnorm]
  have hsome : ((annotatedComponents cats).find?
      (fun rc => strToLower rc.comp.name == strTrim (strToLower s))).isSome := by
    rw [List.find?_isSome]
    exact ⟨_, hmem, hpred⟩
  obtain ⟨y, hy⟩ := Option.isSome_iff_exists.1 hsome
  have hyp := List.find?_some hy
  have hym := List.mem_of_find?_eq_some hy
  have hkey : strToLower y.comp.name = strToLower C.name := by
    have := of_decide_eq_true (by simpa [BEq.beq] using hyp)
    simpa [hnorm] using this
  have hxy : y = ⟨C, catLabel, catName⟩ :=
    eq_of_pairwise_key (fun rc => strToLower rc.comp.name) huniq hym hmem hkey
  simp only [findComponent, hp, findComponentInCats, findExactIn_eq_find?]
  rw [hy, hxy]

/-- Witness for C1 at the modelled collection: a padded, case-varied
spelling of the checkbox name resolves to the checkbox record with its
category annotation. -/
theorem c1_exact_match_witness :
    findComponent mContent "web" " CheckBox " =
      some ⟨checkboxComp, "Controls", "controls"⟩ :=
  c1_exact_match mContent "web"
    [⟨"controls", "Controls", some [buttonComp, checkboxComp]⟩]
    checkboxComp "Controls" "controls" " CheckBox " rfl
    (by decide) (by decide) (by decide) (by decide)

/-- When no stored name equals the normalized query, `findComponent`
reduces to the first satisfier of the fuzzy containment predicate over
the scan order. -/
theorem findComponent_of_no_exact (content : Content) (platform : String)
    (cats : List Category) (s : String)
    (hp : platformData content platform = some cats)
    (hexact : ∀ rc ∈ annotatedComponents cats,
      strToLower rc.comp.name ≠ strTrim (strToLower s)) :
    findComponent content platform s =
      (annotatedComponents cats).find? (fun rc =>
        jsIncludes (strToLower rc.comp.name) (strTrim (strToLower s)) ||
        jsIncludes (strToLower rc.comp.label) (strTrim (strToLower s))) := by
  have hnone : findExactIn (strTrim (strToLower s)) cats = none := by
    rw [findExactIn_eq_find?, List.find?_eq_none]
    intro x hx
    simpa using hexact x hx
  simp only [findComponent, hp, findComponentInCats, hnone]
  exact findFuzzyIn_eq_find? _ cats

/-- C5.  Fuzzy fallback: when no stored name equals the normalized
query, `findComponent` returns the first component in scan order whose
name or label contains the normalized query (and `none` when there is
no such component). -/
theorem c5_fuzzy_fallback (content : Content) (platform : String)
    (cats : List Category) (s : String)
    (hp : platformData content platform = some cats)
    (hexact : ∀ rc ∈ annotatedComponents cats,
      strToLower rc.comp.name ≠ strTrim (strToLower s)) :
    findComponent content platform s =
      (annotatedComponents cats).find? (fun rc =>
        jsIncludes (strToLower rc.comp.name) (strTrim (strToLower s)) ||
        jsIncludes (strToLower rc.comp.label) (strTrim (strToLower s))) :=
  findComponent_of_no_exact content platform cats s hp hexact

/-- Witness for C5 at the modelled collection: "butt" has no exact
match and fuzzy-resolves to the first containment match, the button. -/
theorem c5_fuzzy_fallback_witness :
    findComponent mContent "web" "butt" =
      (annotatedComponents
        [⟨"controls", "Controls", some [buttonComp, checkboxComp]⟩]).find? (fun rc =>
          jsIncludes (strToLower rc.comp.name) (strTrim (strToLower "butt")) ||
          jsIncludes (strToLower rc.comp.label) (strTrim (strToLower "butt"))) :=
  c5_fuzzy_fallback mContent "web"
    [⟨"controls", "Controls", some [buttonComp, checkboxComp]⟩] "butt" rfl (by decide)

/-- The empty needle is contained in every string. -/
theorem jsIncludes_empty_needle (hay : String) : jsIncludes hay "" = true := by
  cases hd : hay.data <;> simp [jsIncludes, hd, jsIncludesAux, List.isPrefixOf]

/-- C3 fails as stated: on a §8-shaped collection with at least one
component, `findComponent("web", "")` does not return `NotFound` — the
empty normalized query is a substring of every name, so the fuzzy pass
returns the first component. -/
theorem c3_counterexample : findComponent mContent "web" "" ≠ none := by decide

/-- C3, amended: `findComponent` returns `NotFound` for every query
whose normalized form equals no stored name and is contained in no
stored name or label; the empty string never satisfies that containment
condition on a platform with components — when no stored name is empty,
`findComponent(P, "")` instead returns the first component in scan
order (hence `NotFound` exactly when the platform has none). -/
theorem c3_amended (content : Content) (platform : String)
    (cats : List Category) (s : String)
    (hp : platformData content platform = some cats) :
    ((∀ rc ∈ annotatedComponents cats,
        strToLower rc.comp.name ≠ strTrim (strToLower s) ∧
        jsIncludes (strToLower rc.comp.name) (strTrim (strToLower s)) = false ∧
        jsIncludes (strToLower rc.comp.label) (strTrim (strToLower s)) = false) →
      findComponent content platform s = none)
    ∧ ((∀ rc ∈ annotatedComponents cats, strToLower rc.comp.name ≠ "") →
      findComponent content platform "" = (annotatedComponents cats).head?) := by
  constructor
  · intro hno
    rw [findComponent_of_no_exact content platform cats s hp (fun rc h => (hno rc h).1),
      List.find?_eq_none]
    intro x hx
    simp [(hno x hx).2.1, (hno x hx).2.2]
  · intro hne
    have hempty : strTrim (strToLower "") = "" := rfl
    rw [findComponent_of_no_exact content platform cats "" hp
      (fun rc h => by simpa [hempty] using hne rc h)]
    rw [hempty]
    cases hcats : annotatedComponents cats with
    | nil => rfl
    | cons a l => exact List.find?_cons_of_pos _ (by simp [jsIncludes_empty_needle])

/-- Witness for the amended C3 at the modelled collection: an
unmatchable query yields `NotFound`, and the empty query yields the
first component of the scan order. -/
theorem c3_amended_witness :
    findComponent mContent "web" "zzz" = none ∧
    findComponent mContent "web" "" =
      (annotatedComponents
        [⟨"controls", "Controls", some [buttonComp, checkboxComp]⟩]).head? :=
  ⟨(c3_amended mContent "web"
      [⟨"controls", "Controls", some [buttonComp, checkboxComp]⟩] "zzz" rfl).1
      (by decide),
   (c3_amended mContent "web"
      [⟨"controls", "Controls", some [buttonComp, checkboxComp]⟩] "zzz" rfl).2
      (by decide)⟩

/-- A pattern of literals matches a prefix exactly when the literal
word is a prefix. -/
theorem regexAccepts_lits :
    ∀ (xs l : List Char), regexAccepts (xs.map RegexElem.lit) l = xs.isPrefixOf l
  | [], l => by cases l <;> simp [regexAccepts, List.isPrefixOf]
  | x :: xs, [] => by simp [regexAccepts, List.isPrefixOf]
  | x :: xs, c :: cs => by
    simp [regexAccepts, List.isPrefixOf, elemMatch, regexAccepts_lits xs cs]

/-- On a pattern of literals the regex match count is the literal
substring count. -/
theorem countFrom_lits (xs : List Char) :
    ∀ (fuel : Nat) (l : List Char),
      countFrom (xs.map RegexElem.lit) fuel l = substrCountFrom xs fuel l
  | 0, l => by cases l <;> simp [countFrom, substrCountFrom]
  | _ + 1, [] => by simp [countFrom, substrCountFrom]
  | fuel + 1, c :: cs => by
    simp only [countFrom, substrCountFrom, regexAccepts_lits, List.length_map]
    by_cases hp : xs.isPrefixOf (c :: cs) = true <;>
      simp [hp, countFrom_lits xs fuel]

/-- A metacharacter-free query compiles to the pattern of its literal
characters. -/
theorem parseRegex_of_no_meta (q : String)
    (h : ∀ ch ∈ q.data, isRegexMeta ch = false) :
    parseRegex q = q.data.map RegexElem.lit := by
  unfold parseRegex
  apply List.map_congr_left
  intro c hc
  have hm := h c hc
  simp only [isRegexMeta, Bool.or_eq_false_iff, decide_eq_false_iff_not] at hm
  simp [hm.1]

/-- For a metacharacter-free query the regex occurrence count of the
source equals the spec's non-overlapping substring count. -/
theorem jsRegexCount_eq_specCount (q hay : String)
    (h : ∀ ch ∈ q.data, isRegexMeta ch = false) :
    jsRegexCount q hay = specOccurrenceCount q hay := by
  simp only [jsRegexCount, specOccurrenceCount, parseRegex_of_no_meta q h]
  cases hq : q.data with
  | nil => simp [hq]
  | cons c cs =>
    simp only [hq, List.map_cons, List.isEmpty_cons, List.length_cons]
    exact countFrom_lits (c :: cs) hay.data.length hay.data

/-- The field-scoring loop agrees with the spec's formulation on every
field table, for a metacharacter-free normalized query. -/
theorem scoreFields_eq_spec (nq : String) (c : Component)
    (h : ∀ ch ∈ nq.data, isRegexMeta ch = false) :
    ∀ fields, scoreFields nq c fields = specScoreFields nq c fields
  | [] => rfl
  | (field, get, weight) :: rest => by
    have ih := scoreFields_eq_spec nq c h rest
    simp only [scoreFields, specScoreFields, ih]
    cases hg : get c with
    | none => rfl
    | some v =>
      by_cases hv : v.isEmpty
      · simp [hv]
      · by_cases hj : jsIncludes (strToLower v) nq <;>
          simp [hv, hj, jsRegexCount_eq_specCount nq (strToLower v) h]

/-- C2 fails as stated: for the query `"."` on a component whose
`generalNotes` is `"a.b"`, the source counts occurrences by matching
the query as a regular expression (the `.` wildcard matches every
character, count 3, score 5 + 2 = 7), while the claim's non-overlapping
substring count gives 1 occurrence and score 5. -/
theorem c2_counterexample :
    (searchComponents cxContent "web" (some ".") 10).map ScoredMatch.score = [7] ∧
    specComponentScore (strTrim (strToLower ".")) dotComp = 5 ∧ (7 : Int) ≠ 5 := by
  refine ⟨by decide, by decide, by decide⟩

/-- C2, amended: the occurrence bonus is computed from a global regex
match of the query, which for queries free of regex metacharacters
coincides with the claim's non-overlapping substring count; for such
queries each component's score and matched-field list are exactly as
the claim states. -/
theorem c2_amended (nq : String) (c : Component)
    (h : ∀ ch ∈ nq.data, isRegexMeta ch = false) :
    scoreComponent nq c = (specComponentScore nq c, specMatchedFields nq c) := by
  simp only [scoreComponent, specComponentScore, specMatchedFields,
    scoreFields_eq_spec nq c h searchFields]

/-- Witness for the amended C2: the §8 search scenario — the query
"given" scores the checkbox 3 with matched field `gherkin`, in
agreement with the spec's count. -/
theorem c2_amended_witness :
    (∀ ch ∈ ("given" : String).data, isRegexMeta ch = false) ∧
    scoreComponent "given" checkboxComp =
      (specComponentScore "given" checkboxComp,
       specMatchedFields "given" checkboxComp) :=
  ⟨by decide, c2_amended "given" checkboxComp (by decide)⟩

/-- The character-list order is total. -/
theorem charListLe_total : ∀ a b : List Char, charListLe a b = true ∨ charListLe b a = true
  | [], _ => Or.inl rfl
  | _ :: _, [] => Or.inr rfl
  | a :: as, b :: bs => by
    by_cases hab : a = b
    · subst hab
      simpa [charListLe] using charListLe_total as bs
    · rcases lt_or_gt_of_ne hab with h | h
      · exact Or.inl (by simp [charListLe, hab, h])
      · exact Or.inr (by simp [charListLe, Ne.symm hab, h])

/-- The character-list order is transitive. -/
theorem charListLe_trans : ∀ a b c : List Char,
    charListLe a b = true → charListLe b c = true → charListLe a c = true
  | [], _, _, _, _ => rfl
  | _ :: _, [], _, h, _ => by simp [charListLe] at h
  | _ :: _, _ :: _, [], _, h => by simp [charListLe] at h
  | a :: as, b :: bs, c :: cs, h1, h2 => by
    simp only [charListLe] at h1 h2 ⊢
    by_cases hab : a = b <;> by_cases hbc : b = c
    · subst hab; subst hbc
      simp only [if_pos rfl] at h1 h2 ⊢
      exact charListLe_trans as bs cs h1 h2
    · subst hab
      simp only [if_pos rfl, if_neg hbc] at h2 ⊢
      exact h2
    · subst hbc
      simp only [if_pos rfl, if_neg hab] at h1 ⊢
      exact h1
    · rw [if_neg hab] at h1
      rw [if_neg hbc] at h2
      have hac : a < c := lt_trans (of_decide_eq_true h1) (of_decide_eq_true h2)
      rw [if_neg (ne_of_lt hac)]
      simp [hac]

/-- The search comparator is total. -/
theorem smLE_total (a b : ScoredMatch) : smLE a b = true ∨ smLE b a = true := by
  rcases lt_trichotomy a.score b.score with h | h | h
  · exact Or.inr (by simp [smLE, h])
  · rcases charListLe_total a.name.data b.name.data with hn | hn
    · exact Or.inl (by simp [smLE, h, strLe, hn])
    · exact Or.inr (by simp [smLE, h, strLe, hn])
  · exact Or.inl (by simp [smLE, h])

/-- The search comparator is transitive. -/
theorem smLE_trans (a b c : ScoredMatch) :
    smLE a b = true → smLE b c = true → smLE a c = true := by
  simp only [smLE, Bool.or_eq_true, Bool.and_eq_true, decide_eq_true_eq]
  rintro (h1 | ⟨h1, hn1⟩) (h2 | ⟨h2, hn2⟩)
  · exact Or.inl (lt_trans h2 h1)
  · exact Or.inl (h2 ▸ h1)
  · exact Or.inl (h1 ▸ h2)
  · exact Or.inr ⟨h1.trans h2,
      charListLe_trans a.name.data b.name.data c.name.data hn1 hn2⟩

instance : IsTotal ScoredMatch smRel :=
  ⟨fun a b => smLE_total a b⟩

instance : IsTrans ScoredMatch smRel :=
  ⟨fun a b c => smLE_trans a b c⟩

/-- Every accumulated search result has positive score. -/
theorem mem_searchResultsUnsorted_pos (x : ScoredMatch) (cats : List Category)
    (nq : String) (hx : x ∈ searchResultsUnsorted cats nq) : 0 < x.score := by
  simp only [searchResultsUnsorted, List.mem_flatMap] at hx
  obtain ⟨cat, _, hx⟩ := hx
  cases h : cat.children with
  | none => rw [h] at hx; simp at hx
  | some children =>
    rw [h] at hx
    simp only [List.mem_filterMap] at hx
    obtain ⟨comp, _, heq⟩ := hx
    split at heq
    · cases heq
      assumption
    · cases heq

/-- Every match in the sorted full list has positive score. -/
theorem mem_allSortedMatches_pos (content : Content) (platform : String)
    (query : Option String) (x : ScoredMatch)
    (hx : x ∈ allSortedMatches content platform query) : 0 < x.score := by
  unfold allSortedMatches at hx
  split at hx
  · simp at hx
  · split at hx
    · simp at hx
    · split at hx
      · simp at hx
      · exact mem_searchResultsUnsorted_pos x _ _
          ((List.mem_insertionSort smRel).1 hx)

/-- The sorted full list is pairwise ordered by the comparator. -/
theorem allSortedMatches_pairwise (content : Content) (platform : String)
    (query : Option String) :
    (allSortedMatches content platform query).Pairwise smRel := by
  unfold allSortedMatches
  split
  · exact List.Pairwise.nil
  · split
    · exact List.Pairwise.nil
    · split
      · exact List.Pairwise.nil
      · exact List.sorted_insertionSort smRel _

/-- C4.  Search ordering and cap: results carry only positive scores,
are sorted by score descending with ties broken by name ascending, and
are truncated to `maxResults` (default 10, no enforced upper bound: a
bound at least the number of matches returns the whole match list). -/
theorem c4_order_and_cap (content : Content) (platform : String)
    (query : Option String) (m : Nat) :
    (∀ x ∈ searchComponents content platform query (m : Int), 0 < x.score)
    ∧ (searchComponents content platform query (m : Int)).Pairwise
        (fun a b => b.score < a.score ∨
          (a.score = b.score ∧ strLe a.name b.name = true))
    ∧ (searchComponents content platform query (m : Int)).length ≤ m
    ∧ searchComponentsDefault content platform query =
        searchComponents content platform query 10
    ∧ ((allSortedMatches content platform query).length ≤ m →
        searchComponents content platform query (m : Int) =
          allSortedMatches content platform query) := by
  have hslice : searchComponents content platform query (m : Int) =
      (allSortedMatches content platform query).take m := by
    simp [searchComponents, jsSliceTo]
  refine ⟨?_, ?_, ?_, rfl, ?_⟩
  · intro x hx
    rw [hslice] at hx
    exact mem_allSortedMatches_pos content platform query x (List.mem_of_mem_take hx)
  · rw [hslice]
    refine List.Pairwise.imp ?_
      ((allSortedMatches_pairwise content platform query).sublist
        (List.take_sublist m _))
    intro a b hab
    simpa [smRel, smLE, Bool.or_eq_true, Bool.and_eq_true, decide_eq_true_eq] using hab
  · rw [hslice]
    exact List.length_take_le m _
  · intro hlen
    rw [hslice]
    exact List.take_of_length_le hlen

/-- Witness for C4 at the modelled collection: a bound of 10 exceeds
the two "given" matches, so the whole sorted match list is returned. -/
theorem c4_order_and_cap_witness :
    searchComponents mContent "web" (some "given") ((10 : Nat) : Int) =
      allSortedMatches mContent "web" (some "given") :=
  (c4_order_and_cap mContent "web" (some "given") 10).2.2.2.2 (by decide)

/-- C7.  `listComponentFormats` returns `NotFound` exactly when
`findComponent` does not resolve, and otherwise reports, for each
content field, whether it is present and truthy (non-empty). -/
theorem c7_list_formats (content : Content) (platform componentName : String) :
    (listComponentFormats content platform componentName = none ↔
      findComponent content platform componentName = none)
    ∧ ∀ rc, findComponent content platform componentName = some rc →
        listComponentFormats content platform componentName =
          some ⟨rc.comp.name, rc.comp.label, rc.category,
            ⟨truthyStr rc.comp.gherkin, truthyStr rc.comp.condensed,
             truthyStr rc.comp.developerNotes, truthyStr rc.comp.androidDeveloperNotes,
             truthyStr rc.comp.iosDeveloperNotes, rc.comp.videos,
             truthyStr rc.comp.generalNotes⟩⟩ := by
  cases h : findComponent content platform componentName with
  | none =>
    exact ⟨by simp [listComponentFormats, h], fun rc hrc => by cases hrc⟩
  | some rc =>
    refine ⟨by simp [listComponentFormats, h], fun rc2 hrc2 => ?_⟩
    cases hrc2
    simp [listComponentFormats, h]

/-- Witness for C7: the checkbox's report has `gherkin: true` and every
other format `false`. -/
theorem c7_list_formats_witness :
    listComponentFormats mContent "web" "checkbox" =
      some ⟨"checkbox", "Checkbox", "Controls",
        ⟨true, false, false, false, false, false, false⟩⟩ :=
  ((c7_list_formats mContent "web" "checkbox").2
    ⟨checkboxComp, "Controls", "controls"⟩ (by decide)).trans (by decide)

/-- C8.  The search dispatchers replace a falsy `max_results`
(`undefined`, `null`, `NaN` or `0`) by the default 10 before calling
`searchComponents`, so the dispatcher cannot request zero results, even
though `searchComponents` itself returns the empty sequence when called
directly with `maxResults = 0`. -/
theorem c8_max_results_default (content : Content) (query : Option String)
    (v : JsNumArg) (p : String) (q2 : Option String)
    (hv : jsNumTruthy v = false) :
    searchWebCriteriaResults content query v =
      searchComponents content "web" query 10
    ∧ searchNativeCriteriaResults content query v =
      searchComponents content "native" query 10
    ∧ searchComponents content p q2 0 = [] := by
  have hd : jsOrDefault v 10 = 10 := by
    cases v with
    | undef => rfl
    | null => rfl
    | nan => rfl
    | number n =>
      simp only [jsNumTruthy, Bool.not_eq_false'] at hv
      simp [jsOrDefault, hv]
  exact ⟨by simp [searchWebCriteriaResults, hd],
    by simp [searchNativeCriteriaResults, hd],
    by simp [searchComponents, jsSliceTo]⟩

/-- Witness for C8: a `NaN` result cap falls back to the default on
both platforms, and a direct zero cap yields no results. -/
theorem c8_max_results_default_witness :
    searchWebCriteriaResults mContent (some "focus") JsNumArg.nan =
      searchComponents mContent "web" (some "focus") 10
    ∧ searchNativeCriteriaResults mContent (some "focus") JsNumArg.nan =
      searchComponents mContent "native" (some "focus") 10
    ∧ searchComponents mContent "web" (some "focus") 0 = [] :=
  c8_max_results_default mContent (some "focus") JsNumArg.nan "web" (some "focus") rfl

/-- A truthiness-gated optional field survives exactly when truthy. -/
theorem jsOrNull_ne_none (o : Option String) :
    jsOrNull o ≠ none ↔ truthyStr o = true := by
  cases o with
  | none => simp [jsOrNull, truthyStr]
  | some s => by_cases hs : s.isEmpty <;> simp [jsOrNull, truthyStr, hs]

/-- C9.  In `get_web_component` and `get_native_component`, the
code-example sections are omitted only for the strict boolean `false`:
for every other supplied argument value the section appears exactly
when the corresponding notes field is present and non-empty. -/
theorem c9_include_code_examples (v : JsArg) (rc : ResolvedComponent) :
    ((formatComponentOutput rc (jsIncludeCodeExamples v)).developerNotes ≠ none ↔
      (v ≠ JsArg.bool false ∧ truthyStr rc.comp.developerNotes = true))
    ∧ ((getNativeComponentSections rc.comp (jsIncludeCodeExamples v)).general ≠ none ↔
      (v ≠ JsArg.bool false ∧ truthyStr rc.comp.developerNotes = true))
    ∧ ((getNativeComponentSections rc.comp (jsIncludeCodeExamples v)).ios ≠ none ↔
      (v ≠ JsArg.bool false ∧ truthyStr rc.comp.iosDeveloperNotes = true))
    ∧ ((getNativeComponentSections rc.comp (jsIncludeCodeExamples v)).android ≠ none ↔
      (v ≠ JsArg.bool false ∧ truthyStr rc.comp.androidDeveloperNotes = true)) := by
  by_cases hv : v = JsArg.bool false
  · subst hv
    simp [jsIncludeCodeExamples, formatComponentOutput, getNativeComponentSections]
  · have ht : jsIncludeCodeExamples v = true := by
      cases v with
      | bool b => cases b with
        | false => exact absurd rfl hv
        | true => rfl
      | undef => rfl
      | null => rfl
      | number n => rfl
      | string s => rfl
    simp [ht, formatComponentOutput, getNativeComponentSections, jsOrNull_ne_none, hv]

/-- C6 fails as stated: no handler validates required parameters.  With
`component` absent, `get_web_component` surfaces the caught `TypeError`
from `findComponent` (not a validation result naming the parameter);
with `component` the empty string it resolves the first component via
the fuzzy pass and succeeds. -/
theorem c6_counterexample :
    isValidationOutcome (getWebComponent mContent none (JsArg.bool true)) = false
    ∧ getWebComponent mContent none (JsArg.bool true) =
        GetComponentOutcome.caughtError JsError.typeError
    ∧ isValidationOutcome (getWebComponent mContent (some "") (JsArg.bool true)) = false
    ∧ getWebComponent mContent (some "") (JsArg.bool true) =
        GetComponentOutcome.ok
          (formatComponentOutput ⟨buttonComp, "Controls", "controls"⟩ true) true := by
  refine ⟨by decide, by decide, by decide, by decide⟩

/-- C6, amended: the handlers perform no required-parameter validation
and never produce a `ValidationError`-style outcome; an absent required
`component` on a present platform surfaces as a caught `TypeError`
rendered as a generic error message, and an empty string is passed to
resolution unchanged. -/
theorem c6_amended (content : Content) (component : Option String) (inc : JsArg)
    (cats : List Category) (hweb : platformData content "web" = some cats) :
    isValidationOutcome (getWebComponent content component inc) = false
    ∧ getWebComponent content none inc =
        GetComponentOutcome.caughtError JsError.typeError := by
  constructor
  · unfold getWebComponent
    split
    · rfl
    · rfl
    · rfl
  · have hf : findComponentJs content "web" none = Except.error JsError.typeError := by
      unfold findComponentJs
      rw [hweb]
    unfold getWebComponent
    rw [hf]

/-- Witness for the amended C6 at the modelled collection. -/
theorem c6_amended_witness :
    isValidationOutcome (getWebComponent mContent (some "button") JsArg.undef) = false
    ∧ getWebComponent mContent none JsArg.undef =
        GetComponentOutcome.caughtError JsError.typeError :=
  c6_amended mContent (some "button") JsArg.undef
    [⟨"controls", "Controls", some [buttonComp, checkboxComp]⟩] rfl

/-- A childless category contributes nothing to the flattened scan
order. -/
theorem annotatedComponents_childless (pre suf : List Category) (cat : Category)
    (hc : cat.children = none) :
    annotatedComponents (pre ++ cat :: suf) = annotatedComponents (pre ++ suf) := by
  simp [annotatedComponents, List.flatMap_append, List.flatMap_cons, hc]

/-- C10.  Every core read operation tolerates a category whose
`children` key is absent: `listComponents`, `findComponent` and
`searchComponents` behave as if the category were not there, and
`listCategories` reports it with `componentCount` 0. -/
theorem c10_childless_category (content content' : Content) (platform : String)
    (pre suf : List Category) (cat : Category)
    (hc : cat.children = none)
    (hp : platformData content platform = some (pre ++ cat :: suf))
    (hp' : platformData content' platform = some (pre ++ suf))
    (category : Option String) (s : String) (q : Option String) (m : Int) :
    listComponents content platform category = listComponents content' platform category
    ∧ findComponent content platform s = findComponent content' platform s
    ∧ searchComponents content platform q m = searchComponents content' platform q m
    ∧ listCategories content platform =
        categorySummaries pre ++ ⟨cat.name, cat.label, 0⟩ :: categorySummaries suf := by
  have hann := annotatedComponents_childless pre suf cat hc
  refine ⟨?_, ?_, ?_, ?_⟩
  · simp only [listComponents, hp, hp']
    simp [List.flatMap_append, List.flatMap_cons, hc]
  · simp only [findComponent, hp, hp', findComponentInCats,
      findExactIn_eq_find?, findFuzzyIn_eq_find?, hann]
  · have hsr : ∀ nq, searchResultsUnsorted (pre ++ cat :: suf) nq =
        searchResultsUnsorted (pre ++ suf) nq := by
      intro nq
      simp [searchResultsUnsorted, List.flatMap_append, List.flatMap_cons, hc]
    have hall : allSortedMatches content platform q =
        allSortedMatches content' platform q := by
      unfold allSortedMatches
      rw [hp, hp']
      cases q with
      | none => rfl
      | some qq =>
        by_cases hqq : qq = "" <;> simp [hqq, hsr]
    simp [searchComponents, hall]
  · simp only [listCategories, hp]
    simp [categorySummaries, hc]

/-- Witness for C10 at a collection with a childless category in front
of the Controls category. -/
theorem c10_childless_category_witness :
    listComponents childlessContent "web" (some "controls") =
      listComponents childlessContentRemoved "web" (some "controls")
    ∧ findComponent childlessContent "web" "checkbox" =
      findComponent childlessContentRemoved "web" "checkbox"
    ∧ searchComponents childlessContent "web" (some "given") 10 =
      searchComponents childlessContentRemoved "web" (some "given") 10
    ∧ listCategories childlessContent "web" =
        categorySummaries [] ++ ⟨"empty", "Empty", 0⟩ ::
          categorySummaries [⟨"controls", "Controls", some [buttonComp, checkboxComp]⟩] :=
  c10_childless_category childlessContent childlessContentRemoved "web"
    [] [⟨"controls", "Controls", some [buttonComp, checkboxComp]⟩]
    ⟨"empty", "Empty", none⟩ rfl rfl rfl (some "controls") "checkbox" (some "given") 10

end A11y
